import Mathlib

/-!
Verification of the RedZ request-time trust boundary: the JWT token service
(`services/common/src/utils/jwt.utils.ts`), the auth middlewares
(`services/common/src/middleware/authMiddleware.ts`), the permission
evaluators (`services/common/src/middleware/permissionMiddleware.ts`) and the
Redis-backed sliding-window rate limiter
(`services/common/src/middleware/rateLimitMiddleware.ts`).

Modelling conventions:
* Machine time (`Date.now()`, JWT `iat`/`exp`) is an integer.
* A signed JWT string is modelled by the record `Token`: its decoded claims,
  whether it parses as a JWT (`wellFormed`), whether its signature verifies
  under the configured public key (`signedWithConfiguredKey`), and its header
  algorithm (`alg`).  `jwt.verify` from the `jsonwebtoken` library checks, in
  this order: decodability, the algorithm allow-list, the signature, `exp`
  (TokenExpiredError), then `aud` and `iss`; `verifyToken` mirrors that order
  and maps the library errors exactly as the repository's catch block does
  (TokenExpiredError to "Token expirado", every JsonWebTokenError to
  "Token inválido", anything else to "Error verificando token").
* Decoded payload objects are JavaScript objects whose fields may be absent;
  absent fields are `Option.none` (refresh tokens carry no email/role/
  department/permissions).
* Header strings are modelled as `List Char`; `String.prototype.split(" ")`
  is `splitOnSpace`.
-/

/-- `JWT_CONFIG.issuer` in jwt.utils.ts. -/
def JWT_ISSUER : String := "RedZ-Platform"

/-- `JWT_CONFIG.audience` in jwt.utils.ts. -/
def JWT_AUDIENCE : String := "RedZ-Users"

/-- `JWT_CONFIG.algorithm` in jwt.utils.ts. -/
def JWT_ALGORITHM : String := "RS256"

/-- A decoded JWT payload object.  `sub` is always present (both token kinds
sign it); the remaining application claims are present only when the signing
call supplied them, hence `Option`.  `tokType` is the `type` claim. -/
structure JwtClaims where
  sub : String
  email : Option String := none
  role : Option String := none
  department : Option String := none
  permissions : Option (List String) := none
  tokType : Option String := none
  iat : Int := 0
  exp : Int := 0
  iss : String := ""
  aud : String := ""
deriving Repr, DecidableEq

/-- A JWT string, abstracted: its decoded claims plus the facts about the
string that `jwt.verify` inspects (parsability, signature validity under the
configured key pair, header algorithm). -/
structure Token where
  claims : JwtClaims
  wellFormed : Bool
  signedWithConfiguredKey : Bool
  alg : String
deriving Repr, DecidableEq

/-- `generateAccessToken` (jwt.utils.ts, lines 67-95): signs
`{sub, email, role, department, permissions}` with the private key, algorithm
RS256, configured issuer and audience, and expiry `now + ttl` (the library
sets `iat := now` and `exp := iat + expiresIn`).  The `type` claim is not
set. -/
def generateAccessToken (sub email role department : String)
    (permissions : List String) (now ttl : Int) : Token :=
  { claims :=
      { sub := sub
        email := some email
        role := some role
        department := some department
        permissions := some permissions
        tokType := none
        iat := now
        exp := now + ttl
        iss := JWT_ISSUER
        aud := JWT_AUDIENCE }
    wellFormed := true
    signedWithConfiguredKey := true
    alg := JWT_ALGORITHM }

/-- `generateRefreshToken` (jwt.utils.ts, lines 103-128): signs only
`{sub: userId, type: "refresh"}` with the same key, algorithm, issuer and
audience, and expiry `now + ttl`. -/
def generateRefreshToken (userId : String) (now ttl : Int) : Token :=
  { claims :=
      { sub := userId
        tokType := some "refresh"
        iat := now
        exp := now + ttl
        iss := JWT_ISSUER
        aud := JWT_AUDIENCE }
    wellFormed := true
    signedWithConfiguredKey := true
    alg := JWT_ALGORITHM }

/-- `verifyToken` (jwt.utils.ts, lines 149-173): `jwt.verify(token, publicKey,
algorithms/issuer/audience)` with the repository's error mapping.  The check
order is the library's: malformed, algorithm allow-list, signature, `exp`,
audience, issuer.  No check of the `type` claim is performed. -/
def verifyToken (t : Token) (now : Int) : Except String JwtClaims :=
  if ¬ t.wellFormed then .error "Token inválido"
  else if t.alg ≠ JWT_ALGORITHM then .error "Token inválido"
  else if ¬ t.signedWithConfiguredKey then .error "Token inválido"
  else if t.claims.exp ≤ now then .error "Token expirado"
  else if t.claims.aud ≠ JWT_AUDIENCE then .error "Token inválido"
  else if t.claims.iss ≠ JWT_ISSUER then .error "Token inválido"
  else .ok t.claims

/-- JavaScript `header.split(" ")` for a single-space separator: splits on
every occurrence, keeping empty segments ("".split(" ") is [""]). -/
def splitOnSpace : List Char → List (List Char)
  | [] => [[]]
  | c :: cs =>
    if c = ' ' then [] :: splitOnSpace cs
    else
      match splitOnSpace cs with
      | [] => [[c]]
      | p :: ps => (c :: p) :: ps

/-- `extractTokenFromHeader` (jwt.utils.ts, lines 266-273): `none` when the
header is absent or empty (`!authHeader` is true for the empty string), else
split on spaces and return the second part exactly when there are two parts
and the first is "Bearer". -/
def extractTokenFromHeader (authHeader : Option (List Char)) :
    Option (List Char) :=
  match authHeader with
  | none => none
  | some h =>
    if h = [] then none
    else
      match splitOnSpace h with
      | [p0, p1] => if p0 = "Bearer".data then some p1 else none
      | _ => none

/-- Outcome of an Express middleware on one request: either `next()` was
called (with the resulting `req.user`), or a response with the given status
and `error` field was sent. -/
inductive MwOutcome where
  | next (user : Option JwtClaims)
  | reject (status : Nat) (error : String)
deriving Repr, DecidableEq

/-- Whether the middleware passed the request on. -/
def MwOutcome.callsNext : MwOutcome → Bool
  | .next _ => true
  | .reject _ _ => false

/-- `authMiddleware` (authMiddleware.ts, lines 22-75), taken after header
extraction: no token means 401 "Token no proporcionado"; otherwise
`verifyToken` is called, a success is attached as `req.user` followed by
`next()`, and its error message is matched against "expirado" / "inválido"
for the 401 branches, anything else giving a 500. -/
def authMiddleware (tok : Option Token) (now : Int) : MwOutcome :=
  match tok with
  | none => .reject 401 "Token no proporcionado"
  | some t =>
    match verifyToken t now with
    | .ok payload => .next (some payload)
    | .error msg =>
      if msg = "Token expirado" then .reject 401 "Token expirado"
      else if msg = "Token inválido" then .reject 401 "Token inválido"
      else .reject 500 "Error de autenticación"

/-- `optionalAuthMiddleware` (authMiddleware.ts, lines 81-100): attaches the
payload when a token is present and verifies, and calls `next()` in every
case — the catch block logs and continues without a user. -/
def optionalAuthMiddleware (tok : Option Token) (now : Int) : MwOutcome :=
  match tok with
  | none => .next none
  | some t =>
    match verifyToken t now with
    | .ok payload => .next (some payload)
    | .error _ => .next none

/-- `requireDepartment` (authMiddleware.ts, lines 167-189): 401 when
unauthenticated, 403 when `allowedDepartments.includes(req.user.department)`
is false (an absent department is never an element of a string array), else
`next()`.  There is no role-based branch in this function. -/
def requireDepartment (allowedDepartments : List String)
    (user : Option JwtClaims) : MwOutcome :=
  match user with
  | none => .reject 401 "No autenticado"
  | some u =>
    let included : Bool :=
      match u.department with
      | some d => allowedDepartments.contains d
      | none => false
    if included = false then .reject 403 "Acceso denegado"
    else .next (some u)

/-- `canAccessDepartment` (permissionMiddleware.ts, lines 293-301): admins
always pass; everyone else passes exactly on their own department. -/
def canAccessDepartment (user : JwtClaims) (targetDepartment : String) : Bool :=
  if user.role = some "admin" then true
  else user.department = some targetDepartment

/-- The `ROLE_PERMISSIONS` lookup table (permissionMiddleware.ts, lines
36-72), with the `Permission` enum members replaced by their string values.
An index by any other key is `undefined`, here `none`. -/
def ROLE_PERMISSIONS (role : String) : Option (List String) :=
  if role = "admin" then
    some ["document:read", "document:write", "document:delete",
          "document:share", "search:basic", "search:advanced",
          "search:semantic", "analytics:view", "analytics:export",
          "analytics:admin", "user:read", "user:write", "user:delete",
          "department:manage"]
  else if role = "manager" then
    some ["document:read", "document:write", "document:share",
          "search:basic", "search:advanced", "search:semantic",
          "analytics:view", "analytics:export", "user:read"]
  else if role = "user" then
    some ["document:read", "document:write", "search:basic",
          "search:advanced", "analytics:view"]
  else if role = "guest" then
    some ["document:read", "search:basic"]
  else none

/-- `ROLE_PERMISSIONS[user.role] || []`: indexing with an absent role gives
`undefined`, and `|| []` turns any missed lookup into the empty array. -/
def rolePermissionsOf (role : Option String) : List String :=
  match role with
  | some r => (ROLE_PERMISSIONS r).getD []
  | none => []

/-- Iteration of a JavaScript `Set` built from a list: keeps the first
occurrence of each element, dropping later duplicates.  `seen` accumulates
the elements already emitted. -/
def insertDedup (seen : List String) : List String → List String
  | [] => []
  | x :: xs =>
    if x ∈ seen then insertDedup seen xs
    else x :: insertDedup (x :: seen) xs

/-- `getUserPermissions` (permissionMiddleware.ts, lines 142-151): role
baseline (`ROLE_PERMISSIONS[user.role] || []`) followed by the custom grants
(`user.permissions || []`), deduplicated through `new Set`. -/
def getUserPermissions (user : JwtClaims) : List String :=
  insertDedup [] (rolePermissionsOf user.role ++ user.permissions.getD [])

/-- The `RateLimitConfig` fields used by `RateLimiter.checkLimit`
(rateLimitMiddleware.ts). -/
structure RateLimitConfig where
  windowMs : Int
  maxRequests : Int
deriving Repr, DecidableEq

/-- The value returned by `RateLimiter.checkLimit`. -/
structure RLResult where
  allowed : Bool
  remaining : Int
  resetAt : Int
  total : Int
deriving Repr, DecidableEq

/-- `zremrangebyscore(redisKey, 0, windowStart)` removes exactly the entries
whose score lies in `[0, windowStart]`; `pruneAt` keeps the others. -/
def pruneAt (windowStart : Int) (st : List Int) : List Int :=
  st.filter fun s => ¬ (0 ≤ s ∧ s ≤ windowStart)

/-- The success path of `RateLimiter.checkLimit` (rateLimitMiddleware.ts,
lines 252-293): one atomic MULTI transaction that prunes entries older than
`now - windowMs`, counts what is left (`zcard`, before the insert), appends
an entry scored `now`, and refreshes the key TTL (no observable effect
here).  The window state is the list of entry scores; the code's
`timestamp + random suffix` member makes every insert a distinct member, so
`zadd` never coalesces two calls and the sorted set behaves as this list
does.  `allowed = currentCount < maxRequests`,
`remaining = max(0, maxRequests - currentCount - 1)`,
`resetAt = now + windowMs`, `total = currentCount + 1`. -/
def checkLimit (cfg : RateLimitConfig) (st : List Int) (now : Int) :
    RLResult × List Int :=
  let windowStart := now - cfg.windowMs
  let pruned := pruneAt windowStart st
  let currentCount : Int := pruned.length
  ({ allowed := decide (currentCount < cfg.maxRequests)
     remaining := max 0 (cfg.maxRequests - currentCount - 1)
     resetAt := now + cfg.windowMs
     total := currentCount + 1 },
   pruned ++ [now])

/-- The catch branch of `RateLimiter.checkLimit` (rateLimitMiddleware.ts,
lines 294-303): when the Redis transaction throws, log and fail open. -/
def checkLimitFailOpen (cfg : RateLimitConfig) (now : Int) : RLResult :=
  { allowed := true
    remaining := cfg.maxRequests
    resetAt := now + cfg.windowMs
    total := 0 }

/-- `RateLimiter.checkLimit` including its error handling: if the store
operation fails the catch branch answers and the store state is untouched;
otherwise the transaction runs. -/
def checkLimitRun (storeFails : Bool) (cfg : RateLimitConfig)
    (st : List Int) (now : Int) : RLResult × List Int :=
  if storeFails then (checkLimitFailOpen cfg now, st)
  else checkLimit cfg st now

/-- Sequential `checkLimit` calls on one key at the given timestamps,
threading the window state; returns the per-call results. -/
def rlResults (cfg : RateLimitConfig) : List Int → List Int → List RLResult
  | [], _ => []
  | t :: ts, st =>
    let p := checkLimit cfg st t
    p.1 :: rlResults cfg ts p.2

/-- The timestamps of the calls that observed `allowed = true`, over a
sequence of atomic `checkLimit` transactions on one shared key.  Concurrency
appears as the commit order of the transactions: Redis MULTI serialises
them, so an interleaving of N callers is exactly a sequence of these
steps. -/
def admittedTimes (cfg : RateLimitConfig) : List Int → List Int → List Int
  | [], _ => []
  | t :: ts, st =>
    if (checkLimit cfg st t).1.allowed then
      t :: admittedTimes cfg ts (checkLimit cfg st t).2
    else admittedTimes cfg ts (checkLimit cfg st t).2

/-- The Boolean test for a timestamp lying in the rolling window
`(T, T + W]`. -/
def inWindow (T W t : Int) : Bool :=
  decide (T < t) && decide (t ≤ T + W)

/-- A concrete expired token whose signature does not verify under the
configured key: `exp = 10`, observed at `now = 100`. -/
def badSigExpiredTok : Token :=
  { claims := { sub := "u2", iat := 0, exp := 10, iss := JWT_ISSUER,
                aud := JWT_AUDIENCE }
    wellFormed := true
    signedWithConfiguredKey := false
    alg := "RS256" }

/-- A concrete access token that is expired (`exp = 10`) but correctly
signed. -/
def expiredAccessTok : Token :=
  generateAccessToken "u1" "u1@redz.io" "user" "IT" ["read"] 0 10

/-- A concrete principal with role `admin` and department `IT`. -/
def adminITUser : JwtClaims :=
  { sub := "u1", email := some "u1@redz.io", role := some "admin",
    department := some "IT", permissions := some [] }

/- ------------------------------------------------------------------ -/
/- Helper lemmas                                                       -/
/- ------------------------------------------------------------------ -/

/-- `verifyToken` succeeds exactly on a parsable, RS256, correctly signed,
unexpired token with the configured audience and issuer. -/
theorem verifyToken_ok (t : Token) (now : Int)
    (h1 : t.wellFormed = true) (h2 : t.alg = JWT_ALGORITHM)
    (h3 : t.signedWithConfiguredKey = true) (h4 : now < t.claims.exp)
    (h5 : t.claims.aud = JWT_AUDIENCE) (h6 : t.claims.iss = JWT_ISSUER) :
    verifyToken t now = .ok t.claims := by
  simp [verifyToken, h1, h2, h3, h5, h6, not_le.mpr h4]

/- ------------------------------------------------------------------ -/
/- C1: refresh tokens on the access path                               -/
/- ------------------------------------------------------------------ -/

/-- C1 counterexample: the unexpired refresh token for subject "user-1"
(issued at 0, ttl 604800, observed at 100) is not rejected by the access
path — `authMiddleware` attaches its payload (whose `type` claim is
"refresh") and calls `next()`. -/
theorem refresh_token_passes_access_path_cex :
    authMiddleware (some (generateRefreshToken "user-1" 0 604800)) 100 =
      .next (some (generateRefreshToken "user-1" 0 604800).claims) ∧
    (generateRefreshToken "user-1" 0 604800).claims.tokType = some "refresh" ∧
    (100 : Int) < (generateRefreshToken "user-1" 0 604800).claims.exp :=
  ⟨rfl, rfl, by decide⟩

/-- C1 amended: neither `verifyToken` nor `authMiddleware` inspects the
`type` claim, so for every subject id, every unexpired refresh token
presented where an access token is required is accepted: `authMiddleware`
attaches the refresh payload (with `type = "refresh"`) and passes the
request on. -/
theorem refresh_token_accepted_on_access_path (userId : String)
    (now ttl tnow : Int) (hfresh : tnow < now + ttl) :
    authMiddleware (some (generateRefreshToken userId now ttl)) tnow =
      .next (some (generateRefreshToken userId now ttl).claims) ∧
    (generateRefreshToken userId now ttl).claims.tokType = some "refresh" := by
  refine ⟨?_, rfl⟩
  have hok : verifyToken (generateRefreshToken userId now ttl) tnow =
      .ok (generateRefreshToken userId now ttl).claims :=
    verifyToken_ok _ _ rfl rfl rfl hfresh rfl rfl
  simp [authMiddleware, hok]

/-- C1 witness: the amended theorem at subject "user-7", issued at 50 with
ttl 1000, observed at 60. -/
theorem refresh_token_accepted_on_access_path_witness :
    authMiddleware (some (generateRefreshToken "user-7" 50 1000)) 60 =
      .next (some (generateRefreshToken "user-7" 50 1000).claims) ∧
    (generateRefreshToken "user-7" 50 1000).claims.tokType = some "refresh" :=
  refresh_token_accepted_on_access_path "user-7" 50 1000 60 (by decide)

/- ------------------------------------------------------------------ -/
/- C2: requireDepartment and the admin bypass                          -/
/- ------------------------------------------------------------------ -/

/-- C2 counterexample: an authenticated admin whose department "IT" is not
in the allowed list ["HR"] is rejected with 403 by `requireDepartment` —
there is no admin bypass in that middleware. -/
theorem requireDepartment_admin_rejected_cex :
    requireDepartment ["HR"] (some adminITUser) =
      .reject 403 "Acceso denegado" ∧
    adminITUser.role = some "admin" ∧ "IT" ∉ ["HR"] :=
  ⟨rfl, rfl, by decide⟩

/-- C2 amended: `requireDepartment` has no admin bypass — for an
authenticated principal it passes exactly when the principal's department is
one of the allowed departments.  The admin bypass exists only in the helper
`canAccessDepartment`, which returns true for role "admin" against any
target department. -/
theorem requireDepartment_membership_only :
    (∀ (allowedDepartments : List String) (u : JwtClaims),
      requireDepartment allowedDepartments (some u) = .next (some u) ↔
        ∃ d, u.department = some d ∧ d ∈ allowedDepartments) ∧
    (∀ (u : JwtClaims) (dep : String), u.role = some "admin" →
      canAccessDepartment u dep = true) := by
  constructor
  · intro allowedDepartments u
    rcases hd : u.department with _ | d
    · simp [requireDepartment, hd]
    · by_cases hc : allowedDepartments.contains d
      · simp [requireDepartment, hd, hc]
      · simp [requireDepartment, hd, hc]
  · intro u dep hrole
    simp [canAccessDepartment, hrole]

/-- C2 witness: the amended theorem at a principal in department "IT"
against the list ["IT"], and at an admin principal against department
"Sales". -/
theorem requireDepartment_membership_only_witness :
    requireDepartment ["IT"] (some adminITUser) = .next (some adminITUser) ∧
    canAccessDepartment adminITUser "Sales" = true :=
  ⟨(requireDepartment_membership_only.1 ["IT"] adminITUser).mpr
      ⟨"IT", rfl, by decide⟩,
   requireDepartment_membership_only.2 adminITUser "Sales" rfl⟩

/- ------------------------------------------------------------------ -/
/- C3: the five-then-deny-then-reset trace                             -/
/- ------------------------------------------------------------------ -/

/-- C3: with `maxRequests = 5` and `windowMs = 1000`, starting from an empty
window, calls at 0,1,2,3,4 are allowed with remaining 4,3,2,1,0, the sixth
call inside the window (at 5) is denied, and the first call after the window
has fully elapsed (at 1005) is allowed again. -/
theorem rateLimiter_five_window_trace :
    rlResults ⟨1000, 5⟩ [0, 1, 2, 3, 4, 5, 1005] [] =
      [⟨true, 4, 1000, 1⟩, ⟨true, 3, 1001, 2⟩, ⟨true, 2, 1002, 3⟩,
       ⟨true, 1, 1003, 4⟩, ⟨true, 0, 1004, 5⟩, ⟨false, 0, 1005, 6⟩,
       ⟨true, 4, 2005, 1⟩] := by decide

/- ------------------------------------------------------------------ -/
/- C4: fail-open on store failure                                      -/
/- ------------------------------------------------------------------ -/

/-- C4: for every key state, configuration and time, a failing store
operation makes `checkLimit` return `allowed = true`,
`remaining = maxRequests`, `total = 0` (and `resetAt = now + windowMs`)
without touching the store and without raising. -/
theorem rateLimiter_fail_open (cfg : RateLimitConfig) (st : List Int)
    (now : Int) :
    checkLimitRun true cfg st now =
      ({ allowed := true, remaining := cfg.maxRequests,
         resetAt := now + cfg.windowMs, total := 0 }, st) :=
  rfl

/- ------------------------------------------------------------------ -/
/- C5: access-token round trip                                         -/
/- ------------------------------------------------------------------ -/

/-- C5: for every claim set and ttl, verifying the freshly issued access
token succeeds and returns the same subject, email, role, department and
permissions, with `exp` exactly `iat + ttl` (so within any 1-second
tolerance). -/
theorem access_token_round_trip (sub email role department : String)
    (permissions : List String) (now ttl tnow : Int)
    (hfresh : tnow < now + ttl) :
    verifyToken (generateAccessToken sub email role department permissions
        now ttl) tnow =
      .ok { sub := sub, email := some email, role := some role,
            department := some department, permissions := some permissions,
            tokType := none, iat := now, exp := now + ttl,
            iss := JWT_ISSUER, aud := JWT_AUDIENCE } ∧
    (generateAccessToken sub email role department permissions now
        ttl).claims.exp =
      (generateAccessToken sub email role department permissions now
        ttl).claims.iat + ttl :=
  ⟨verifyToken_ok _ _ rfl rfl rfl hfresh rfl rfl, rfl⟩

/-- C5 witness: the round trip at a concrete claim set, issued at 1000 with
ttl 900, verified at 1500. -/
theorem access_token_round_trip_witness :
    verifyToken (generateAccessToken "u9" "u9@redz.io" "manager" "Sales"
        ["analytics:view"] 1000 900) 1500 =
      .ok { sub := "u9", email := some "u9@redz.io", role := some "manager",
            department := some "Sales",
            permissions := some ["analytics:view"], tokType := none,
            iat := 1000, exp := 1900, iss := JWT_ISSUER,
            aud := JWT_AUDIENCE } :=
  (access_token_round_trip "u9" "u9@redz.io" "manager" "Sales"
    ["analytics:view"] 1000 900 1500 (by decide)).1

/- ------------------------------------------------------------------ -/
/- C7: expiry versus signature validity                                -/
/- ------------------------------------------------------------------ -/

/-- C7 counterexample: an expired token (`exp = 10`, observed at 100) whose
signature does not verify fails with "Token inválido", not the Expired
outcome — `jwt.verify` checks the signature before the expiry claim. -/
theorem expired_bad_signature_invalid_cex :
    verifyToken badSigExpiredTok 100 = .error "Token inválido" ∧
    badSigExpiredTok.claims.exp ≤ 100 ∧
    verifyToken badSigExpiredTok 100 ≠ .error "Token expirado" :=
  ⟨rfl, by decide, by
    intro h
    rw [show verifyToken badSigExpiredTok 100 = .error "Token inválido"
      from rfl] at h
    simp at h⟩

/-- C7 amended: for every parsable RS256 token whose signature verifies
under the configured key and whose `exp` has passed, `verifyToken` fails
with "Token expirado" (irrespective of audience and issuer, which the
library checks after expiry); with an invalid signature the outcome is
"Token inválido" even when expired. -/
theorem expired_valid_signature_expires (t : Token) (now : Int)
    (h1 : t.wellFormed = true) (h2 : t.alg = JWT_ALGORITHM)
    (h3 : t.signedWithConfiguredKey = true) (hexp : t.claims.exp ≤ now) :
    verifyToken t now = .error "Token expirado" := by
  simp [verifyToken, h1, h2, h3, hexp]

/-- C7 witness: the amended theorem at the concrete expired, correctly
signed access token, observed at 99. -/
theorem expired_valid_signature_expires_witness :
    verifyToken expiredAccessTok 99 = .error "Token expirado" :=
  expired_valid_signature_expires expiredAccessTok 99 rfl rfl rfl (by decide)

/- ------------------------------------------------------------------ -/
/- C8: permission resolution                                           -/
/- ------------------------------------------------------------------ -/

/-- Membership in a JavaScript-Set deduplication: an element is kept iff it
occurs in the input and was not already emitted. -/
theorem mem_insertDedup (x : String) (l : List String) :
    ∀ seen : List String, x ∈ insertDedup seen l ↔ x ∈ l ∧ x ∉ seen := by
  induction l with
  | nil => intro seen; simp [insertDedup]
  | cons y ys ih =>
    intro seen
    by_cases hy : y ∈ seen
    · by_cases hxy : x = y
      · subst hxy; simp [insertDedup, hy, ih]
      · simp [insertDedup, hy, ih, hxy]
    · by_cases hxy : x = y
      · subst hxy; simp [insertDedup, hy, ih]
      · simp only [insertDedup, if_neg hy, List.mem_cons, ih, hxy,
          false_or]

/-- A JavaScript-Set deduplication has no duplicates. -/
theorem nodup_insertDedup (l : List String) :
    ∀ seen : List String, (insertDedup seen l).Nodup := by
  induction l with
  | nil => intro seen; simp [insertDedup]
  | cons y ys ih =>
    intro seen
    by_cases hy : y ∈ seen
    · simpa [insertDedup, hy] using ih seen
    · simp only [insertDedup, if_neg hy]
      refine List.nodup_cons.mpr ⟨fun hmem => ?_, ih (y :: seen)⟩
      exact ((mem_insertDedup y ys (y :: seen)).mp hmem).2
        (List.mem_cons_self y seen)

/-- C8: for every principal, the resolved permission list is duplicate-free
and contains exactly the union of the role baseline
(`ROLE_PERMISSIONS[user.role] || []`) and the principal's custom
permissions; and every role outside the defined mapping (admin, manager,
user, guest) contributes the empty baseline, never null/undefined. -/
theorem resolved_permissions_spec :
    (∀ u : JwtClaims, (getUserPermissions u).Nodup ∧
      ∀ p, p ∈ getUserPermissions u ↔
        (p ∈ rolePermissionsOf u.role ∨ p ∈ u.permissions.getD [])) ∧
    (∀ r : String, r ≠ "admin" → r ≠ "manager" → r ≠ "user" → r ≠ "guest" →
      rolePermissionsOf (some r) = []) := by
  constructor
  · intro u
    refine ⟨nodup_insertDedup _ [], fun p => ?_⟩
    rw [getUserPermissions, mem_insertDedup]
    simp
  · intro r h1 h2 h3 h4
    simp [rolePermissionsOf, ROLE_PERMISSIONS, h1, h2, h3, h4]

/-- C8 witness: the theorem at the concrete admin principal and at the
unmapped role "superuser". -/
theorem resolved_permissions_spec_witness :
    (getUserPermissions adminITUser).Nodup ∧
    rolePermissionsOf (some "superuser") = [] :=
  ⟨(resolved_permissions_spec.1 adminITUser).1,
   resolved_permissions_spec.2 "superuser" (by decide) (by decide)
     (by decide) (by decide)⟩

/- ------------------------------------------------------------------ -/
/- C9: Bearer extraction                                               -/
/- ------------------------------------------------------------------ -/

/-- Unfolding of `splitOnSpace` at a leading space. -/
theorem splitOnSpace_space (cs : List Char) :
    splitOnSpace (' ' :: cs) = [] :: splitOnSpace cs := by
  simp [splitOnSpace]

/-- Unfolding of `splitOnSpace` at a leading non-space character. -/
theorem splitOnSpace_nonspace (c : Char) (cs p : List Char)
    (ps : List (List Char)) (hc : c ≠ ' ') (h : splitOnSpace cs = p :: ps) :
    splitOnSpace (c :: cs) = (c :: p) :: ps := by
  simp [splitOnSpace, hc, h]

/-- `split(" ")` never returns an empty parts array. -/
theorem splitOnSpace_ne_nil (l : List Char) : splitOnSpace l ≠ [] := by
  cases l with
  | nil => simp [splitOnSpace]
  | cons c cs =>
    by_cases hc : c = ' '
    · subst hc; rw [splitOnSpace_space]; simp
    · rcases h : splitOnSpace cs with _ | ⟨p, ps⟩
      · simp [splitOnSpace, hc, h]
      · rw [splitOnSpace_nonspace c cs p ps hc h]; simp

/-- `split(" ")` yields one part exactly on a space-free input, and the part
is the input itself. -/
theorem splitOnSpace_eq_single (l : List Char) :
    ∀ b : List Char, splitOnSpace l = [b] ↔ l = b ∧ ' ' ∉ b := by
  induction l with
  | nil =>
    intro b
    show [([] : List Char)] = [b] ↔ _
    constructor
    · intro h
      rw [List.cons.injEq] at h
      obtain ⟨rfl, -⟩ := h
      exact ⟨rfl, by simp⟩
    · rintro ⟨rfl, -⟩
      rfl
  | cons c cs ih =>
    intro b
    by_cases hc : c = ' '
    · subst hc
      rw [splitOnSpace_space]
      constructor
      · intro h
        rw [List.cons.injEq] at h
        exact absurd h.2 (splitOnSpace_ne_nil cs)
      · rintro ⟨rfl, hsp⟩
        exact absurd (List.mem_cons_self _ _) hsp
    · rcases h : splitOnSpace cs with _ | ⟨p, ps⟩
      · exact absurd h (splitOnSpace_ne_nil cs)
      · rw [splitOnSpace_nonspace c cs p ps hc h]
        constructor
        · intro heq
          rw [List.cons.injEq] at heq
          obtain ⟨rfl, rfl⟩ := heq
          obtain ⟨rfl, hsp⟩ := (ih p).mp h
          refine ⟨rfl, fun hmem => ?_⟩
          rcases List.mem_cons.mp hmem with hmem | hmem
          · exact hc hmem.symm
          · exact hsp hmem
        · rintro ⟨rfl, hsp⟩
          have hsp' : ' ' ∉ cs := fun hmem =>
            hsp (List.mem_cons_of_mem _ hmem)
          have hcs := (ih cs).mpr ⟨rfl, hsp'⟩
          rw [h] at hcs
          rw [List.cons.injEq] at hcs
          obtain ⟨rfl, rfl⟩ := hcs
          rfl

/-- `split(" ")` yields two parts exactly on an input with one space, the
parts being the space-free segments around it. -/
theorem splitOnSpace_eq_pair (l : List Char) :
    ∀ a b : List Char, splitOnSpace l = [a, b] ↔
      (l = a ++ ' ' :: b ∧ ' ' ∉ a ∧ ' ' ∉ b) := by
  induction l with
  | nil =>
    intro a b
    show [([] : List Char)] = [a, b] ↔ _
    constructor
    · intro h
      rw [List.cons.injEq] at h
      exact absurd h.2 (by simp)
    · rintro ⟨h, -, -⟩
      exact absurd h.symm (by simp)
  | cons c cs ih =>
    intro a b
    by_cases hc : c = ' '
    · subst hc
      rw [splitOnSpace_space]
      constructor
      · intro heq
        rw [List.cons.injEq] at heq
        obtain ⟨rfl, hcs⟩ := heq
        obtain ⟨rfl, hsp⟩ := (splitOnSpace_eq_single cs b).mp hcs
        exact ⟨rfl, by simp, hsp⟩
      · rintro ⟨heq, ha, hb⟩
        rcases a with _ | ⟨x, a'⟩
        · rw [List.nil_append] at heq
          rw [List.cons.injEq] at heq
          obtain ⟨-, rfl⟩ := heq
          rw [List.cons.injEq]
          exact ⟨rfl, (splitOnSpace_eq_single cs cs).mpr ⟨rfl, hb⟩⟩
        · rw [List.cons_append, List.cons.injEq] at heq
          refine absurd ?_ ha
          rw [← heq.1]
          exact List.mem_cons_self _ _
    · rcases h : splitOnSpace cs with _ | ⟨p, ps⟩
      · exact absurd h (splitOnSpace_ne_nil cs)
      · rw [splitOnSpace_nonspace c cs p ps hc h]
        constructor
        · intro heq
          rw [List.cons.injEq] at heq
          obtain ⟨rfl, rfl⟩ := heq
          obtain ⟨rfl, hp, hb⟩ := (ih p b).mp h
          refine ⟨rfl, fun hmem => ?_, hb⟩
          rcases List.mem_cons.mp hmem with hmem | hmem
          · exact hc hmem.symm
          · exact hp hmem
        · rintro ⟨heq, ha, hb⟩
          rcases a with _ | ⟨x, a'⟩
          · rw [List.nil_append] at heq
            rw [List.cons.injEq] at heq
            exact absurd heq.1 hc
          · rw [List.cons_append, List.cons.injEq] at heq
            obtain ⟨rfl, heq2⟩ := heq
            have ha' : ' ' ∉ a' := fun hmem =>
              ha (List.mem_cons_of_mem _ hmem)
            have hcs := (ih a' b).mpr ⟨heq2, ha', hb⟩
            rw [h] at hcs
            rw [List.cons.injEq] at hcs
            obtain ⟨rfl, rfl⟩ := hcs
            rfl

/-- Unfolding of `extractTokenFromHeader` at a present header. -/
theorem extractTokenFromHeader_some (h : List Char) :
    extractTokenFromHeader (some h) =
      if h = [] then none
      else
        match splitOnSpace h with
        | [p0, p1] => if p0 = "Bearer".data then some p1 else none
        | _ => none := rfl

/-- C9: `extractTokenFromHeader` returns a token exactly when the header is
the two-part form "Bearer token" — the characters "Bearer", one space, and
a space-free token; a missing header, and every header of any other shape,
returns null (the function is total, so it never raises). -/
theorem extract_bearer_characterization :
    extractTokenFromHeader none = none ∧
    (∀ h tok : List Char,
      extractTokenFromHeader (some h) = some tok ↔
        (h = "Bearer".data ++ ' ' :: tok ∧ ' ' ∉ tok)) ∧
    (∀ h : List Char,
      (∀ tok : List Char, ¬ (h = "Bearer".data ++ ' ' :: tok ∧ ' ' ∉ tok)) →
      extractTokenFromHeader (some h) = none) := by
  have hiff : ∀ h tok : List Char,
      extractTokenFromHeader (some h) = some tok ↔
        (h = "Bearer".data ++ ' ' :: tok ∧ ' ' ∉ tok) := by
    intro h tok
    constructor
    · intro he
      rw [extractTokenFromHeader_some] at he
      by_cases he0 : h = []
      · rw [if_pos he0] at he
        exact absurd he (by simp)
      · rw [if_neg he0] at he
        split at he
        · rename_i p0 p1 hs
          by_cases hb : p0 = "Bearer".data
          · rw [if_pos hb] at he
            rw [Option.some_inj] at he
            subst he; subst hb
            obtain ⟨rfl, -, hsp⟩ := (splitOnSpace_eq_pair h _ _).mp hs
            exact ⟨rfl, hsp⟩
          · rw [if_neg hb] at he
            exact absurd he (by simp)
        · exact absurd he (by simp)
    · rintro ⟨rfl, hsp⟩
      have hpair : splitOnSpace ("Bearer".data ++ ' ' :: tok) =
          ["Bearer".data, tok] :=
        (splitOnSpace_eq_pair _ _ _).mpr ⟨rfl, by decide, hsp⟩
      rw [extractTokenFromHeader_some, if_neg (by simp), hpair]
      show (if "Bearer".data = "Bearer".data then some tok else none) =
        some tok
      rw [if_pos rfl]
  refine ⟨rfl, hiff, fun h hnone => ?_⟩
  rcases hres : extractTokenFromHeader (some h) with _ | tok
  · rfl
  · exact absurd ((hiff h tok).mp hres) (hnone tok)

/-- C9 witness: the characterization evaluated at the concrete header
"Bearer abc", extracting the token "abc". -/
theorem extract_bearer_characterization_witness :
    extractTokenFromHeader (some "Bearer abc".data) = some "abc".data :=
  (extract_bearer_characterization.2.1 _ _).mpr ⟨by decide, by decide⟩

/- ------------------------------------------------------------------ -/
/- C10: optionalAuthMiddleware never rejects                           -/
/- ------------------------------------------------------------------ -/

/-- C10: `optionalAuthMiddleware` calls `next()` on every request and never
sends a rejection; when the carried token fails verification (invalid,
expired or malformed) the request proceeds with no user attached. -/
theorem optionalAuth_always_next (tok : Option Token) (now : Int) :
    (optionalAuthMiddleware tok now).callsNext = true ∧
    (∀ (t : Token) (e : String), tok = some t →
      verifyToken t now = .error e →
      optionalAuthMiddleware tok now = .next none) := by
  constructor
  · rcases tok with _ | t
    · rfl
    · rcases hv : verifyToken t now with e | p <;>
        simp [optionalAuthMiddleware, hv, MwOutcome.callsNext]
  · intro t e htok hv
    subst htok
    simp [optionalAuthMiddleware, hv]

/-- C10 witness: the theorem at the concrete expired access token, observed
at 99: the middleware passes the request on with no user. -/
theorem optionalAuth_always_next_witness :
    (optionalAuthMiddleware (some expiredAccessTok) 99).callsNext = true ∧
    optionalAuthMiddleware (some expiredAccessTok) 99 = .next none :=
  ⟨(optionalAuth_always_next (some expiredAccessTok) 99).1,
   (optionalAuth_always_next (some expiredAccessTok) 99).2 expiredAccessTok
     "Token expirado" rfl (by rfl)⟩

/- ------------------------------------------------------------------ -/
/- C6: no over-admission within any rolling window                     -/
/- ------------------------------------------------------------------ -/

/-- The window state produced by one `checkLimit` transaction. -/
theorem checkLimit_state (cfg : RateLimitConfig) (st : List Int) (t : Int) :
    (checkLimit cfg st t).2 = pruneAt (t - cfg.windowMs) st ++ [t] := rfl

/-- The admission decision of one `checkLimit` transaction. -/
theorem checkLimit_allowed (cfg : RateLimitConfig) (st : List Int) (t : Int) :
    (checkLimit cfg st t).1.allowed =
      decide (((pruneAt (t - cfg.windowMs) st).length : Int) <
        cfg.maxRequests) := rfl

/-- Every admitted timestamp comes from the call trace. -/
theorem mem_admittedTimes (cfg : RateLimitConfig) (ts : List Int) :
    ∀ (st : List Int) (x : Int), x ∈ admittedTimes cfg ts st → x ∈ ts := by
  induction ts with
  | nil => intro st x hx; simp [admittedTimes] at hx
  | cons t ts' ih =>
    intro st x hx
    simp only [admittedTimes] at hx
    by_cases hall : (checkLimit cfg st t).1.allowed = true
    · rw [if_pos hall] at hx
      rcases List.mem_cons.mp hx with rfl | hx
      · exact List.mem_cons_self _ _
      · exact List.mem_cons_of_mem _ (ih _ x hx)
    · rw [if_neg hall] at hx
      exact List.mem_cons_of_mem _ (ih _ x hx)

/-- Pruning at a threshold at or below the window start `T` does not remove
any entry of the rolling window `(T, T + W]`. -/
theorem countP_pruneAt_window (st : List Int) (tau T W : Int)
    (htau : tau ≤ T) :
    (pruneAt tau st).countP (inWindow T W) = st.countP (inWindow T W) := by
  rw [pruneAt, List.countP_filter]
  apply List.countP_congr
  intro a _
  by_cases h1 : T < a
  · by_cases h2 : a ≤ T + W
    · have h3 : ¬ (0 ≤ a ∧ a ≤ tau) := by omega
      simp [inWindow, h1, h2, h3]
    · simp [inWindow, h2]
  · simp [inWindow, h1]

/-- Invariant behind the over-admission bound: along any chronologically
ordered tail of the trace, the number of future admissions inside the
rolling window `(T, T + W]` plus the (capped) number of window entries
already in the store never exceeds `maxRequests`.  Every call — admitted or
denied — appends its entry, and window entries survive every prune whose
threshold is at most `T`. -/
theorem admitted_bound_aux (cfg : RateLimitConfig) (T : Int)
    (ts : List Int) :
    ts.Pairwise (· ≤ ·) → ∀ st : List Int,
      ((admittedTimes cfg ts st).countP (inWindow T cfg.windowMs) : Int) +
        min cfg.maxRequests
          ((st.countP (inWindow T cfg.windowMs) : Int)) ≤
      cfg.maxRequests := by
  induction ts with
  | nil =>
    intro _ st
    rw [show admittedTimes cfg [] st = [] from rfl, List.countP_nil]
    have := min_le_left cfg.maxRequests
      ((st.countP (inWindow T cfg.windowMs) : Int))
    omega
  | cons t ts' ih =>
    intro hp st
    rw [List.pairwise_cons] at hp
    obtain ⟨hhead, hp'⟩ := hp
    by_cases hwin : T + cfg.windowMs < t
    · -- the call (and, by monotonicity, every later call) is past the window
      have hzero :
          (admittedTimes cfg (t :: ts') st).countP
            (inWindow T cfg.windowMs) = 0 := by
        apply List.countP_eq_zero.mpr
        intro a ha
        have hat := mem_admittedTimes cfg (t :: ts') st a ha
        have hta : t ≤ a := by
          rcases List.mem_cons.mp hat with rfl | hmem
          · exact le_refl a
          · exact hhead a hmem
        simp only [inWindow, Bool.and_eq_true, decide_eq_true_eq, not_and]
        intro _
        omega
      rw [hzero]
      have := min_le_left cfg.maxRequests
        ((st.countP (inWindow T cfg.windowMs) : Int))
      omega
    · push_neg at hwin
      have hcount := countP_pruneAt_window st (t - cfg.windowMs) T
        cfg.windowMs (by omega)
      have hkey := ih hp' ((checkLimit cfg st t).2)
      by_cases ht : T < t
      · -- the call lands inside the window
        have hwt : inWindow T cfg.windowMs t = true := by
          simp [inWindow, ht, hwin]
        have hstC_le :
            (st.countP (inWindow T cfg.windowMs) : Int) ≤
              ((pruneAt (t - cfg.windowMs) st).length : Int) := by
          rw [← hcount]
          exact_mod_cast List.countP_le_length _
        have hst' :
            ((checkLimit cfg st t).2.countP (inWindow T cfg.windowMs)) =
              st.countP (inWindow T cfg.windowMs) + 1 := by
          rw [checkLimit_state, List.countP_append, hcount]
          simp [hwt]
        rw [hst'] at hkey
        by_cases hall : (checkLimit cfg st t).1.allowed = true
        · have hlt :
              ((pruneAt (t - cfg.windowMs) st).length : Int) <
                cfg.maxRequests := by
            rw [checkLimit_allowed] at hall
            exact of_decide_eq_true hall
          rw [show admittedTimes cfg (t :: ts') st =
              t :: admittedTimes cfg ts' (checkLimit cfg st t).2 from by
            simp only [admittedTimes, if_pos hall]]
          rw [List.countP_cons_of_pos _ _ hwt]
          push_cast at hkey ⊢
          omega
        · rw [show admittedTimes cfg (t :: ts') st =
              admittedTimes cfg ts' (checkLimit cfg st t).2 from by
            simp only [admittedTimes, if_neg hall]]
          push_cast at hkey ⊢
          omega
      · -- the call is at or before the window start
        push_neg at ht
        have hwt : inWindow T cfg.windowMs t = false := by
          simp [inWindow]
          intro h1
          omega
        have hst' :
            ((checkLimit cfg st t).2.countP (inWindow T cfg.windowMs)) =
              st.countP (inWindow T cfg.windowMs) := by
          rw [checkLimit_state, List.countP_append, hcount]
          simp [hwt]
        rw [hst'] at hkey
        by_cases hall : (checkLimit cfg st t).1.allowed = true
        · rw [show admittedTimes cfg (t :: ts') st =
              t :: admittedTimes cfg ts' (checkLimit cfg st t).2 from by
            simp only [admittedTimes, if_pos hall]]
          rw [List.countP_cons_of_neg _ _ (by simp [hwt])]
          exact hkey
        · rw [show admittedTimes cfg (t :: ts') st =
              admittedTimes cfg ts' (checkLimit cfg st t).2 from by
            simp only [admittedTimes, if_neg hall]]
          exact hkey

/-- C6: for any number of callers sharing one key — an interleaving of
their requests is a chronologically ordered sequence of atomic MULTI
transactions against the shared store — the number of `checkLimit` calls
that observe `allowed = true` with timestamp inside any rolling window
`(T, T + windowMs]` never exceeds `maxRequests`: because the five store
steps commit atomically, no two callers can act on the same stale count. -/
theorem rateLimiter_no_overadmission (cfg : RateLimitConfig)
    (times : List Int) (hmono : times.Pairwise (· ≤ ·))
    (hM : 0 ≤ cfg.maxRequests) (T : Int) :
    ((admittedTimes cfg times []).countP (inWindow T cfg.windowMs) : Int) ≤
      cfg.maxRequests := by
  have h := admitted_bound_aux cfg T times hmono []
  rw [List.countP_nil] at h
  omega

/-- C6 witness: six simultaneous calls (all at time 0) under
`maxRequests = 5`, `windowMs = 1000`: at most five are admitted inside the
window `(-1, 999]`. -/
theorem rateLimiter_no_overadmission_witness :
    ([(0 : Int), 0, 0, 0, 0, 0].Pairwise (· ≤ ·)) ∧
    ((admittedTimes ⟨1000, 5⟩ [0, 0, 0, 0, 0, 0] []).countP
        (inWindow (-1) 1000) : Int) ≤ 5 :=
  ⟨by decide,
   rateLimiter_no_overadmission ⟨1000, 5⟩ [0, 0, 0, 0, 0, 0] (by decide)
     (by decide) (-1)⟩
